import Mathlib

/-!
# Verification of the paper-trading engine (Taiwan stock instant trading system)

Shallow embedding of the repository's non-UI engine:

* `Account` (src/account.py, duplicated in src/main.py): cash/holdings ledger
  with `buy`, `sell`, `get_total_asset`.  Python floats are modelled as exact
  rationals (`ℚ`); Python's insertion-ordered dict is modelled as an
  association list on which lookup / in-place update / delete act on the first
  occurrence of a key.  The ambient clock (`datetime.now()`) is passed in as an
  explicit `now : String` argument and recorded in trades exactly as the code
  records the formatted timestamp.
* `StockAPI` (src/stock_api.py): the quote resolver.  Network I/O is modelled
  by passing each provider call's outcome as an explicit `FetchResult` value:
  `netError` stands for a raised exception anywhere inside the corresponding
  `try` block (connection failure, timeout, JSON or float-parse error), and
  `response status body` for a completed HTTP exchange whose decoded payload
  is `body`.  Payload fields whose numeric parse the code guards (the `'-'`
  placeholders of the intraday endpoint, absent Yahoo fields) are `Option`s.
-/

namespace Engine

abbrev Symbol := String

/-- One record of `trade_history` (src/account.py lines 40-47 and 71-78).
`side` is the `'type'` field: the code stores the strings `"買進"` / `"賣出"`. -/
structure Trade where
  time : String
  side : String
  stock_code : Symbol
  price : ℚ
  qty : ℤ
  amount : ℚ
deriving DecidableEq, Repr

/-- The ledger state of `class Account` (src/account.py lines 8-19):
`cash`, `holdings : dict stock_code → shares`, `trade_history`. -/
structure Account where
  cash : ℚ
  holdings : List (Symbol × ℤ)
  trade_history : List Trade
deriving DecidableEq, Repr

/-- `Account.__init__`: fresh ledger with the given initial cash (default
1,000,000), empty holdings and empty history. -/
def Account.init (initial_cash : ℚ) : Account :=
  { cash := initial_cash, holdings := [], trade_history := [] }

/-- Dict lookup `d[k]` / membership test `k in d`: the value at the first
occurrence of key `k`, if any. -/
def lookupKey {β : Type} : List (Symbol × β) → Symbol → Option β
  | [], _ => none
  | (k', v') :: t, k => if k = k' then some v' else lookupKey t k

/-- In-place dict update `d[k] = v`: replaces the value at the first
occurrence of `k`, appends `(k, v)` when `k` is absent (insertion order). -/
def updEntry : List (Symbol × ℤ) → Symbol → ℤ → List (Symbol × ℤ)
  | [], k, v => [(k, v)]
  | (k', v') :: t, k, v =>
      if k = k' then (k, v) :: t else (k', v') :: updEntry t k v

/-- Dict deletion `del d[k]`: removes the first occurrence of key `k`. -/
def delEntry : List (Symbol × ℤ) → Symbol → List (Symbol × ℤ)
  | [], _ => []
  | (k', v') :: t, k => if k = k' then t else (k', v') :: delEntry t k

/-- Buy-side fee rate: `fee = 0.001425` (src/account.py line 31). -/
def buyFee : ℚ := 1425 / 1000000

/-- Sell-side fee rate: `fee = 0.001425` (src/account.py line 62). -/
def sellFee : ℚ := 1425 / 1000000

/-- Transaction tax on sells: `tax = 0.003` (src/account.py line 63). -/
def sellTax : ℚ := 3 / 1000

/-- `Account.buy(stock_code, price, qty)` (src/account.py lines 21-49).
Computes `cost = price * qty * (1 + fee)`; if `cash >= cost` it debits cash,
creates a 0 entry for an unheld symbol, adds `qty` to the entry, appends a
`'買進'` trade with `amount = cost`, and returns `True`; otherwise it returns
`False` with no mutation.  The boolean is the code's entire result. -/
def Account.buy (a : Account) (now : String) (stock_code : Symbol)
    (price : ℚ) (qty : ℤ) : Bool × Account :=
  let cost := price * (qty : ℚ) * (1 + buyFee)
  if cost ≤ a.cash then
    let h0 := if (lookupKey a.holdings stock_code).isNone
      then a.holdings ++ [(stock_code, 0)] else a.holdings
    let prev := (lookupKey h0 stock_code).getD 0
    (true,
      { cash := a.cash - cost
        holdings := updEntry h0 stock_code (prev + qty)
        trade_history := a.trade_history ++
          [{ time := now, side := "買進", stock_code := stock_code,
             price := price, qty := qty, amount := cost }] })
  else (false, a)

/-- `Account.sell(stock_code, price, qty)` (src/account.py lines 51-80).
Succeeds iff `stock_code in holdings and holdings[stock_code] >= qty`;
then `revenue = price * qty * (1 - fee - tax)` is credited, the position is
decremented (its key deleted when it reaches 0) and a `'賣出'` trade with
`amount = revenue` is appended.  Both failure cases return the same `False`
with no mutation. -/
def Account.sell (a : Account) (now : String) (stock_code : Symbol)
    (price : ℚ) (qty : ℤ) : Bool × Account :=
  match lookupKey a.holdings stock_code with
  | some shares =>
    if qty ≤ shares then
      let revenue := price * (qty : ℚ) * (1 - sellFee - sellTax)
      let newShares := shares - qty
      (true,
        { cash := a.cash + revenue
          holdings := if newShares = 0 then delEntry a.holdings stock_code
            else updEntry a.holdings stock_code newShares
          trade_history := a.trade_history ++
            [{ time := now, side := "賣出", stock_code := stock_code,
               price := price, qty := qty, amount := revenue }] })
    else (false, a)
  | none => (false, a)

/-- `Account.get_total_asset(stock_prices)` (src/account.py lines 82-94):
`total = cash`; for each held `(stock_code, shares)`, if `stock_code` is a key
of `stock_prices` then `total += stock_prices[stock_code] * shares`.  The
method only reads the ledger; in the embedding it is a pure function. -/
def Account.get_total_asset (a : Account) (stock_prices : List (Symbol × ℚ)) : ℚ :=
  a.holdings.foldl
    (fun total p =>
      match lookupKey stock_prices p.1 with
      | some pr => total + pr * (p.2 : ℚ)
      | none => total)
    a.cash

/-- A user-triggered ledger operation, with the clock reading it was issued
at; prices and quantities are arbitrary (the code validates neither). -/
inductive Op where
  | buy (now : String) (stock_code : Symbol) (price : ℚ) (qty : ℤ)
  | sell (now : String) (stock_code : Symbol) (price : ℚ) (qty : ℤ)

/-- Apply one operation, keeping only the resulting state. -/
def applyOp (a : Account) : Op → Account
  | .buy now c p q => (a.buy now c p q).2
  | .sell now c p q => (a.sell now c p q).2

/-- Run a finite sequence of operations from a state. -/
def applyOps (a : Account) (ops : List Op) : Account :=
  ops.foldl applyOp a

/-! ## Association-list lemmas -/

theorem lookupKey_mem {β : Type} {l : List (Symbol × β)} {k : Symbol} {v : β}
    (h : lookupKey l k = some v) : (k, v) ∈ l := by
  induction l with
  | nil => simp [lookupKey] at h
  | cons hd t ih =>
    obtain ⟨k', v'⟩ := hd
    by_cases hk : k = k'
    · subst hk
      simp [lookupKey] at h
      simp [h]
    · simp [lookupKey, hk] at h
      exact List.mem_cons_of_mem _ (ih h)

theorem lookupKey_eq_none {β : Type} {l : List (Symbol × β)} {k : Symbol} :
    lookupKey l k = none ↔ ∀ p ∈ l, p.1 ≠ k := by
  induction l with
  | nil => simp [lookupKey]
  | cons hd t ih =>
    obtain ⟨k', v'⟩ := hd
    by_cases hk : k = k'
    · subst hk
      simp [lookupKey]
    · simp [lookupKey, hk, ih, Ne.symm hk]

theorem lookupKey_append_self {β : Type} {l : List (Symbol × β)} {k : Symbol}
    (h : lookupKey l k = none) (v : β) :
    lookupKey (l ++ [(k, v)]) k = some v := by
  induction l with
  | nil => simp [lookupKey]
  | cons hd t ih =>
    obtain ⟨k', v'⟩ := hd
    by_cases hk : k = k'
    · subst hk; simp [lookupKey] at h
    · simp [lookupKey, hk] at h ⊢
      exact ih h

theorem updEntry_append_self {l : List (Symbol × ℤ)} {k : Symbol}
    (h : lookupKey l k = none) (w v : ℤ) :
    updEntry (l ++ [(k, w)]) k v = l ++ [(k, v)] := by
  induction l with
  | nil => simp [updEntry]
  | cons hd t ih =>
    obtain ⟨k', v'⟩ := hd
    by_cases hk : k = k'
    · subst hk; simp [lookupKey] at h
    · simp [lookupKey, hk] at h
      simp [updEntry, hk, ih h]

theorem mem_updEntry {l : List (Symbol × ℤ)} {k : Symbol} {v : ℤ}
    {x : Symbol × ℤ} (h : x ∈ updEntry l k v) : x = (k, v) ∨ x ∈ l := by
  induction l with
  | nil => simp [updEntry] at h; simp [h]
  | cons hd t ih =>
    obtain ⟨k', v'⟩ := hd
    by_cases hk : k = k'
    · subst hk
      simp [updEntry] at h
      rcases h with h | h
      · exact Or.inl h
      · exact Or.inr (List.mem_cons_of_mem _ h)
    · simp [updEntry, hk] at h
      rcases h with h | h
      · exact Or.inr (by simp [h])
      · rcases ih h with h' | h'
        · exact Or.inl h'
        · exact Or.inr (List.mem_cons_of_mem _ h')

theorem mem_delEntry {l : List (Symbol × ℤ)} {k : Symbol}
    {x : Symbol × ℤ} (h : x ∈ delEntry l k) : x ∈ l := by
  induction l with
  | nil => simp [delEntry] at h
  | cons hd t ih =>
    obtain ⟨k', v'⟩ := hd
    by_cases hk : k = k'
    · subst hk
      simp [delEntry] at h
      exact List.mem_cons_of_mem _ h
    · simp [delEntry, hk] at h
      rcases h with h | h
      · simp [h]
      · exact List.mem_cons_of_mem _ (ih h)

/-! ## Operation shape lemmas -/

theorem buy_fail {a : Account} {now : String} {c : Symbol} {p : ℚ} {q : ℤ}
    (h : a.cash < p * (q : ℚ) * (1 + buyFee)) :
    a.buy now c p q = (false, a) := by
  simp only [Account.buy]
  rw [if_neg (not_le.mpr h)]

theorem buy_succ {a : Account} {now : String} {c : Symbol} {p : ℚ} {q : ℤ}
    (h : p * (q : ℚ) * (1 + buyFee) ≤ a.cash) :
    a.buy now c p q = (true,
      { cash := a.cash - p * (q : ℚ) * (1 + buyFee)
        holdings :=
          match lookupKey a.holdings c with
          | none => a.holdings ++ [(c, q)]
          | some s => updEntry a.holdings c (s + q)
        trade_history := a.trade_history ++
          [{ time := now, side := "買進", stock_code := c, price := p,
             qty := q, amount := p * (q : ℚ) * (1 + buyFee) }] }) := by
  simp only [Account.buy]
  rw [if_pos h]
  cases hl : lookupKey a.holdings c with
  | none =>
    simp [hl, lookupKey_append_self hl, updEntry_append_self hl]
  | some s =>
    simp [hl]

theorem sell_fail_unknown {a : Account} {now : String} {c : Symbol} {p : ℚ}
    {q : ℤ} (hl : lookupKey a.holdings c = none) :
    a.sell now c p q = (false, a) := by
  simp only [Account.sell]
  rw [hl]

theorem sell_fail_shares {a : Account} {now : String} {c : Symbol} {p : ℚ}
    {q s : ℤ} (hl : lookupKey a.holdings c = some s) (h : s < q) :
    a.sell now c p q = (false, a) := by
  simp only [Account.sell]
  rw [hl]
  simp [not_le.mpr h]

theorem sell_succ {a : Account} {now : String} {c : Symbol} {p : ℚ}
    {q s : ℤ} (hl : lookupKey a.holdings c = some s) (h : q ≤ s) :
    a.sell now c p q = (true,
      { cash := a.cash + p * (q : ℚ) * (1 - sellFee - sellTax)
        holdings := if s - q = 0 then delEntry a.holdings c
          else updEntry a.holdings c (s - q)
        trade_history := a.trade_history ++
          [{ time := now, side := "賣出", stock_code := c, price := p,
             qty := q, amount := p * (q : ℚ) * (1 - sellFee - sellTax) }] }) := by
  simp only [Account.sell]
  rw [hl]
  simp [h]

/-! ## Invariant preservation -/

theorem buy_cash_nonneg (a : Account) (now : String) (c : Symbol) (p : ℚ)
    (q : ℤ) (ha : 0 ≤ a.cash) : 0 ≤ (a.buy now c p q).2.cash := by
  rcases le_or_lt (p * (q : ℚ) * (1 + buyFee)) a.cash with h | h
  · rw [buy_succ h]
    simpa using sub_nonneg.mpr h
  · rw [buy_fail h]
    exact ha

theorem sell_cash_nonneg (a : Account) (now : String) (c : Symbol) (p : ℚ)
    (q : ℤ) (ha : 0 ≤ a.cash) (hp : 0 ≤ p) (hq : 0 ≤ q) :
    0 ≤ (a.sell now c p q).2.cash := by
  cases hl : lookupKey a.holdings c with
  | none => rw [sell_fail_unknown hl]; exact ha
  | some s =>
    rcases le_or_lt q s with h | h
    · rw [sell_succ hl h]
      have hrev : (0 : ℚ) ≤ p * (q : ℚ) * (1 - sellFee - sellTax) := by
        apply mul_nonneg (mul_nonneg hp (by exact_mod_cast hq))
        norm_num [sellFee, sellTax]
      simpa using add_nonneg ha hrev
    · rw [sell_fail_shares hl h]; exact ha

theorem buy_holdings_pos (a : Account) (now : String) (c : Symbol) (p : ℚ)
    (q : ℤ) (hq : 0 < q) (ha : ∀ x ∈ a.holdings, 0 < x.2) :
    ∀ x ∈ (a.buy now c p q).2.holdings, 0 < x.2 := by
  rcases le_or_lt (p * (q : ℚ) * (1 + buyFee)) a.cash with h | h
  · rw [buy_succ h]
    cases hl : lookupKey a.holdings c with
    | none =>
      intro x hx
      simp only [List.mem_append, List.mem_singleton] at hx
      rcases hx with hx | hx
      · exact ha x hx
      · subst hx; exact hq
    | some s =>
      intro x hx
      rcases mem_updEntry hx with hx' | hx'
      · subst hx'
        have hs : 0 < s := ha (c, s) (lookupKey_mem hl)
        exact add_pos hs hq
      · exact ha x hx'
  · rw [buy_fail h]
    exact ha

theorem sell_holdings_pos (a : Account) (now : String) (c : Symbol) (p : ℚ)
    (q : ℤ) (ha : ∀ x ∈ a.holdings, 0 < x.2) :
    ∀ x ∈ (a.sell now c p q).2.holdings, 0 < x.2 := by
  cases hl : lookupKey a.holdings c with
  | none => rw [sell_fail_unknown hl]; exact ha
  | some s =>
    rcases le_or_lt q s with h | h
    · rw [sell_succ hl h]
      by_cases h0 : s - q = 0
      · simp only [h0, if_pos]
        intro x hx
        exact ha x (mem_delEntry hx)
      · simp only [h0, if_neg, ite_false]
        intro x hx
        rcases mem_updEntry hx with hx' | hx'
        · subst hx'
          exact lt_of_le_of_ne (sub_nonneg.mpr h) (Ne.symm h0)
        · exact ha x hx'
    · rw [sell_fail_shares hl h]; exact ha

theorem applyOps_cash_nonneg (ops : List Op) :
    ∀ a : Account, 0 ≤ a.cash →
      (∀ op ∈ ops, ∀ now c p q, op = Op.sell now c p q → 0 ≤ p ∧ 0 ≤ q) →
      0 ≤ (applyOps a ops).cash := by
  induction ops with
  | nil => intro a ha _; exact ha
  | cons op t ih =>
    intro a ha hops
    simp only [applyOps, List.foldl_cons]
    apply ih
    · cases op with
      | buy now c p q => exact buy_cash_nonneg a now c p q ha
      | sell now c p q =>
        obtain ⟨hp, hq⟩ :=
          hops (Op.sell now c p q) (List.mem_cons_self _ _) now c p q rfl
        exact sell_cash_nonneg a now c p q ha hp hq
    · intro op' hop' now c p q he
      exact hops op' (List.mem_cons_of_mem _ hop') now c p q he

theorem applyOps_holdings_pos (ops : List Op) :
    ∀ a : Account, (∀ x ∈ a.holdings, 0 < x.2) →
      (∀ op ∈ ops, ∀ now c p q, op = Op.buy now c p q → 0 < q) →
      ∀ x ∈ (applyOps a ops).holdings, 0 < x.2 := by
  induction ops with
  | nil => intro a ha _; exact ha
  | cons op t ih =>
    intro a ha hops
    simp only [applyOps, List.foldl_cons]
    apply ih
    · cases op with
      | buy now c p q =>
        exact buy_holdings_pos a now c p q
          (hops (Op.buy now c p q) (List.mem_cons_self _ _) now c p q rfl) ha
      | sell now c p q => exact sell_holdings_pos a now c p q ha
    · intro op' hop' now c p q he
      exact hops op' (List.mem_cons_of_mem _ hop') now c p q he

/-! ## Key-uniqueness lemmas (states representable as a Python dict have
duplicate-free keys, and both mutations preserve that). -/

theorem updEntry_keys_of_some {l : List (Symbol × ℤ)} {k : Symbol} {s : ℤ}
    (hl : lookupKey l k = some s) (v : ℤ) :
    (updEntry l k v).map Prod.fst = l.map Prod.fst := by
  induction l with
  | nil => simp [lookupKey] at hl
  | cons hd t ih =>
    obtain ⟨k', v'⟩ := hd
    by_cases hk : k = k'
    · subst hk; simp [updEntry]
    · simp [lookupKey, hk] at hl
      simp [updEntry, hk, ih hl]

theorem updEntry_of_none {l : List (Symbol × ℤ)} {k : Symbol}
    (hl : lookupKey l k = none) (v : ℤ) :
    updEntry l k v = l ++ [(k, v)] := by
  induction l with
  | nil => simp [updEntry]
  | cons hd t ih =>
    obtain ⟨k', v'⟩ := hd
    by_cases hk : k = k'
    · subst hk; simp [lookupKey] at hl
    · simp [lookupKey, hk] at hl
      simp [updEntry, hk, ih hl]

theorem delEntry_sublist (l : List (Symbol × ℤ)) (k : Symbol) :
    (delEntry l k).Sublist l := by
  induction l with
  | nil => simp [delEntry]
  | cons hd t ih =>
    obtain ⟨k', v'⟩ := hd
    by_cases hk : k = k'
    · simp [delEntry, hk]
    · simpa [delEntry, hk] using ih.cons₂ (k', v')

theorem delEntry_lookup_none {l : List (Symbol × ℤ)} {k : Symbol}
    (hnd : (l.map Prod.fst).Nodup) : lookupKey (delEntry l k) k = none := by
  induction l with
  | nil => simp [delEntry, lookupKey]
  | cons hd t ih =>
    obtain ⟨k', v'⟩ := hd
    simp only [List.map_cons, List.nodup_cons] at hnd
    by_cases hk : k = k'
    · subst hk
      simp only [delEntry, if_pos rfl]
      rw [lookupKey_eq_none]
      intro p hp hpk
      exact hnd.1 (hpk ▸ List.mem_map_of_mem Prod.fst hp)
    · simp [delEntry, hk, lookupKey, ih hnd.2]

theorem buy_keys_nodup (a : Account) (now : String) (c : Symbol) (p : ℚ)
    (q : ℤ) (hnd : (a.holdings.map Prod.fst).Nodup) :
    ((a.buy now c p q).2.holdings.map Prod.fst).Nodup := by
  rcases le_or_lt (p * (q : ℚ) * (1 + buyFee)) a.cash with h | h
  · rw [buy_succ h]
    cases hl : lookupKey a.holdings c with
    | none =>
      have hc : c ∉ a.holdings.map Prod.fst := by
        rw [lookupKey_eq_none] at hl
        intro hmem
        obtain ⟨x, hx, hxc⟩ := List.mem_map.mp hmem
        exact hl x hx hxc
      simp only [List.map_append, List.map_cons, List.map_nil]
      refine hnd.append (List.nodup_singleton c) ?_
      intro x hx hxc
      rw [List.mem_singleton] at hxc
      exact hc (hxc ▸ hx)
    | some s =>
      simpa [updEntry_keys_of_some hl] using hnd
  · rw [buy_fail h]; exact hnd

theorem sell_keys_nodup (a : Account) (now : String) (c : Symbol) (p : ℚ)
    (q : ℤ) (hnd : (a.holdings.map Prod.fst).Nodup) :
    ((a.sell now c p q).2.holdings.map Prod.fst).Nodup := by
  cases hl : lookupKey a.holdings c with
  | none => rw [sell_fail_unknown hl]; exact hnd
  | some s =>
    rcases le_or_lt q s with h | h
    · rw [sell_succ hl h]
      by_cases h0 : s - q = 0
      · simp only [h0, if_pos]
        exact hnd.sublist ((delEntry_sublist a.holdings c).map Prod.fst)
      · simp only [h0, if_neg, ite_false]
        simpa [updEntry_keys_of_some hl] using hnd
    · rw [sell_fail_shares hl h]; exact hnd

theorem applyOps_keys_nodup (ops : List Op) :
    ∀ a : Account, (a.holdings.map Prod.fst).Nodup →
      ((applyOps a ops).holdings.map Prod.fst).Nodup := by
  induction ops with
  | nil => intro a ha; exact ha
  | cons op t ih =>
    intro a ha
    simp only [applyOps, List.foldl_cons]
    apply ih
    cases op with
    | buy now c p q => exact buy_keys_nodup a now c p q ha
    | sell now c p q => exact sell_keys_nodup a now c p q ha

/-! ## Ledger claims -/

/-- C1: for every ledger state and every `(price, qty)` with
`cash < price * qty * 1.001425`, `buy` fails via its explicit result value
`False` — `buy`'s only failure kind, insufficient funds; the code returns it
rather than raising — and leaves cash, holdings and the trade history
unchanged (the whole state is returned as it was). -/
theorem buy_insufficient_funds_rejected (a : Account) (now : String)
    (c : Symbol) (p : ℚ) (q : ℤ) (h : a.cash < p * (q : ℚ) * 1.001425) :
    (a.buy now c p q).1 = false ∧ (a.buy now c p q).2 = a := by
  have he : (1.001425 : ℚ) = 1 + buyFee := by norm_num [buyFee]
  rw [he] at h
  rw [buy_fail h]
  exact ⟨rfl, rfl⟩

/-- Witness for C1 at cash 0, price 500, qty 1000. -/
theorem buy_insufficient_funds_rejected_witness :
    (Account.init 0).cash < 500 * ((1000 : ℤ) : ℚ) * 1.001425 ∧
      (((Account.init 0).buy "t" "X" 500 1000).1 = false ∧
        ((Account.init 0).buy "t" "X" 500 1000).2 = Account.init 0) :=
  ⟨by norm_num [Account.init],
    buy_insufficient_funds_rejected (Account.init 0) "t" "X" 500 1000
      (by norm_num [Account.init])⟩

/-- C2 counterexample: the two sell failure kinds are NOT distinguishable
results.  Selling 5 shares of "A" from a ledger that does not hold "A"
(unknown position) and from a ledger holding 1 share of "A" (insufficient
shares) both return the identical result value `False` — the method's entire
result is one boolean, so no caller can tell the failure kinds apart. -/
theorem sell_failures_indistinguishable :
    ((Account.init 1000).sell "t" "A" 10 5).1 = false ∧
    ((⟨1000, [("A", 1)], []⟩ : Account).sell "t" "A" 10 5).1 = false ∧
    ((Account.init 1000).sell "t" "A" 10 5).1 =
      ((⟨1000, [("A", 1)], []⟩ : Account).sell "t" "A" 10 5).1 := by
  refine ⟨?_, ?_, ?_⟩ <;> norm_num [Account.sell, Account.init, lookupKey]

/-- C2 amended: `sell` fails both when the symbol is not a key of holdings
and when the held share count is below `qty`, in each case leaving cash,
holdings and the trade history unchanged; but the two failure kinds are
reported by the same result value `False`, not as distinguishable results. -/
theorem sell_failure_unchanged (a : Account) (now : String) (c : Symbol)
    (p : ℚ) (q : ℤ)
    (h : lookupKey a.holdings c = none ∨
      ∃ s : ℤ, lookupKey a.holdings c = some s ∧ s < q) :
    a.sell now c p q = (false, a) := by
  rcases h with h | ⟨s, hl, hs⟩
  · exact sell_fail_unknown h
  · exact sell_fail_shares hl hs

/-- Witness for C2 (amended) in the unknown-position case. -/
theorem sell_failure_unchanged_witness :
    (lookupKey (Account.init 1000).holdings "A" = none ∨
      ∃ s : ℤ, lookupKey (Account.init 1000).holdings "A" = some s ∧ s < 5) ∧
    (Account.init 1000).sell "t" "A" 10 5 = (false, Account.init 1000) :=
  ⟨Or.inl rfl, sell_failure_unchanged (Account.init 1000) "t" "A" 10 5 (Or.inl rfl)⟩

/-- The C3 round trip's first leg: `buy("X", 500, 1000)` on a fresh ledger
with cash 1,000,000. -/
def roundTripBuy : Bool × Account := (Account.init 1000000).buy "t1" "X" 500 1000

/-- The C3 round trip's second leg: the subsequent `sell("X", 500, 1000)`. -/
def roundTripSell : Bool × Account := roundTripBuy.2.sell "t2" "X" 500 1000

/-- C3: from a fresh ledger with cash exactly 1,000,000,
`buy("X", 500, 1000)` succeeds at cost 500,712.5 leaving cash 499,287.5 and
holdings `{X: 1000}`; the subsequent `sell("X", 500, 1000)` succeeds at
revenue 497,787.5 leaving cash 997,075 and empty holdings — a round-trip
loss of exactly 2,925. -/
theorem round_trip_exact :
    roundTripBuy.1 = true ∧ roundTripBuy.2.cash = 499287.5 ∧
    roundTripBuy.2.holdings = [("X", 1000)] ∧
    roundTripBuy.2.trade_history.map Trade.amount = [500712.5] ∧
    roundTripSell.1 = true ∧ roundTripSell.2.cash = 997075 ∧
    roundTripSell.2.holdings = [] ∧
    roundTripSell.2.trade_history.map Trade.amount = [500712.5, 497787.5] ∧
    1000000 - roundTripSell.2.cash = 2925 := by
  norm_num [roundTripBuy, roundTripSell, Account.buy, Account.sell,
    Account.init, buyFee, sellFee, sellTax, updEntry, delEntry, lookupKey]

/-- C4 counterexample: `buy("X", 500, 0)` from a fresh ledger succeeds (the
code checks neither `price > 0` nor `qty > 0`) and leaves `holdings` with the
key "X" mapped to 0, so the invariant fails as stated over all operation
sequences. -/
theorem zero_qty_buy_zero_entry :
    ((Account.init 1000000).buy "t" "X" 500 0).1 = true ∧
    ((Account.init 1000000).buy "t" "X" 500 0).2.holdings = [("X", 0)] := by
  norm_num [Account.buy, Account.init, buyFee, updEntry, lookupKey]

/-- C4 amended: after every finite sequence of buy and sell operations
applied to a freshly created ledger, provided every buy in the sequence has a
strictly positive quantity (sells need no restriction), every holdings entry
holds a strictly positive share count; reachable holdings have
duplicate-free keys; and on any such state a sell of the exact held amount
deletes the symbol's key. -/
theorem holdings_pos_of_pos_buys (cash0 : ℚ) (ops : List Op)
    (hops : ∀ op ∈ ops, ∀ now c p q, op = Op.buy now c p q → 0 < q) :
    (∀ x ∈ (applyOps (Account.init cash0) ops).holdings, 0 < x.2) ∧
    (((applyOps (Account.init cash0) ops).holdings.map Prod.fst).Nodup) ∧
    (∀ (a : Account), (a.holdings.map Prod.fst).Nodup →
      ∀ (now : String) (c : Symbol) (p : ℚ) (s : ℤ),
        lookupKey a.holdings c = some s →
        lookupKey ((a.sell now c p s).2).holdings c = none) := by
  refine ⟨applyOps_holdings_pos ops _ (by simp [Account.init]) hops,
    applyOps_keys_nodup ops _ (by simp [Account.init]), ?_⟩
  intro a hnd now c p s hl
  rw [sell_succ hl le_rfl]
  simp only [sub_self, if_pos]
  exact delEntry_lookup_none hnd

/-- Witness for C4 (amended): a buy of 30 then a sell of 10 of "X". -/
theorem holdings_pos_of_pos_buys_witness :
    (∀ op ∈ [Op.buy "t1" "X" 5 30, Op.sell "t2" "X" 5 10],
      ∀ now c p q, op = Op.buy now c p q → 0 < q) ∧
    (∀ x ∈ (applyOps (Account.init 1000)
        [Op.buy "t1" "X" 5 30, Op.sell "t2" "X" 5 10]).holdings, 0 < x.2) := by
  have h : ∀ op ∈ [Op.buy "t1" "X" 5 30, Op.sell "t2" "X" 5 10],
      ∀ now c p q, op = Op.buy now c p q → 0 < q := by
    intro op hop now c p q he
    simp only [List.mem_cons, List.not_mem_nil, or_false] at hop
    rcases hop with h1 | h1
    · rw [h1] at he; cases he; norm_num
    · rw [h1] at he; cases he
  exact ⟨h, (holdings_pos_of_pos_buys 1000 _ h).1⟩

/-- C5 counterexample: a sell at a negative price drives cash below 0.  From
a fresh ledger with cash 1,000,000, `buy("X", 1, 1)` then
`sell("X", -10000000, 1)` leaves cash negative (the sell's revenue
`price * qty * 0.995575` is negative and the code adds it unconditionally). -/
theorem negative_price_sell_negative_cash :
    (applyOps (Account.init 1000000)
      [Op.buy "t1" "X" 1 1, Op.sell "t2" "X" (-10000000) 1]).cash < 0 := by
  norm_num [applyOps, applyOp, Account.buy, Account.sell, Account.init,
    buyFee, sellFee, sellTax, updEntry, delEntry, lookupKey]

/-- C5 amended: `cash ≥ 0` holds in every state reachable from a freshly
created ledger with nonnegative initial cash by any sequence of buy and sell
operations in which every sell has nonnegative price and quantity (buys are
unrestricted); and a buy that would drive cash below 0 is rejected before
any mutation. -/
theorem cash_nonneg_of_nonneg_sells (cash0 : ℚ) (h0 : 0 ≤ cash0)
    (ops : List Op)
    (hops : ∀ op ∈ ops, ∀ now c p q, op = Op.sell now c p q → 0 ≤ p ∧ 0 ≤ q) :
    0 ≤ (applyOps (Account.init cash0) ops).cash ∧
    (∀ (a : Account) (now : String) (c : Symbol) (p : ℚ) (q : ℤ),
      a.cash < p * (q : ℚ) * (1 + buyFee) → a.buy now c p q = (false, a)) :=
  ⟨applyOps_cash_nonneg ops _ h0 hops, fun _ _ _ _ _ h => buy_fail h⟩

/-- Witness for C5 (amended): a buy followed by a nonnegative sell. -/
theorem cash_nonneg_of_nonneg_sells_witness :
    (0 : ℚ) ≤ 1000000 ∧
    (∀ op ∈ [Op.buy "t1" "X" 500 1000, Op.sell "t2" "X" 500 1000],
      ∀ now c p q, op = Op.sell now c p q → 0 ≤ p ∧ 0 ≤ q) ∧
    0 ≤ (applyOps (Account.init 1000000)
      [Op.buy "t1" "X" 500 1000, Op.sell "t2" "X" 500 1000]).cash := by
  have h : ∀ op ∈ [Op.buy "t1" "X" 500 1000, Op.sell "t2" "X" 500 1000],
      ∀ now c p q, op = Op.sell now c p q → 0 ≤ p ∧ 0 ≤ q := by
    intro op hop now c p q he
    simp only [List.mem_cons, List.not_mem_nil, or_false] at hop
    rcases hop with h1 | h1
    · rw [h1] at he; cases he
    · rw [h1] at he; cases he; norm_num
  exact ⟨by norm_num, h,
    (cash_nonneg_of_nonneg_sells 1000000 (by norm_num) _ h).1⟩

/-- Fold/sum bridge for `get_total_asset`. -/
theorem foldl_asset (prices : List (Symbol × ℚ)) (l : List (Symbol × ℤ)) :
    ∀ init : ℚ,
      l.foldl (fun total x =>
        match lookupKey prices x.1 with
        | some pr => total + pr * (x.2 : ℚ)
        | none => total) init
      = init + (l.map (fun x =>
        match lookupKey prices x.1 with
        | some pr => pr * (x.2 : ℚ)
        | none => 0)).sum := by
  induction l with
  | nil => intro init; simp
  | cons hd t ih =>
    intro init
    cases hpr : lookupKey prices hd.1 with
    | none => simp [List.foldl_cons, hpr, ih]
    | some pr =>
      simp only [List.foldl_cons, hpr, List.map_cons, List.sum_cons, ih]
      ring

/-- C6: `get_total_asset` returns cash plus the sum, over the held symbols,
of `quotes[s] * holdings[s]` when `s` is a key of the quote map and 0 when it
is not — a held symbol missing from the quote map contributes 0 and causes
no error.  The right-hand side is the spec's formula; the method only reads
the ledger (it is a pure function of the state in this embedding, matching
the code, which performs no mutation). -/
theorem total_asset_eq_cash_add_sum (a : Account)
    (prices : List (Symbol × ℚ)) :
    a.get_total_asset prices =
      a.cash + (a.holdings.map (fun x =>
        match lookupKey prices x.1 with
        | some pr => pr * (x.2 : ℚ)
        | none => 0)).sum := by
  unfold Account.get_total_asset
  exact foldl_asset prices a.holdings a.cash

/-- C10: `buy` succeeds exactly when `cash ≥ price * qty * (1 + 0.001425)`;
it validates neither `price > 0` nor `qty > 0`, so a buy of quantity 0
succeeds whenever `cash ≥ 0`, leaves cash unchanged, appends a trade of
amount 0, and — when the symbol was not previously held — leaves a holdings
entry mapped to 0. -/
theorem buy_no_validation (a : Account) (now : String) (c : Symbol) (p : ℚ)
    (q : ℤ) :
    ((a.buy now c p q).1 = true ↔ p * (q : ℚ) * (1 + 0.001425) ≤ a.cash) ∧
    (0 ≤ a.cash →
      (a.buy now c p 0).1 = true ∧
      (a.buy now c p 0).2.cash = a.cash ∧
      (a.buy now c p 0).2.trade_history = a.trade_history ++
        [{ time := now, side := "買進", stock_code := c, price := p,
           qty := 0, amount := 0 }] ∧
      (lookupKey a.holdings c = none →
        (a.buy now c p 0).2.holdings = a.holdings ++ [(c, 0)])) := by
  have he : (1 + 0.001425 : ℚ) = 1 + buyFee := by norm_num [buyFee]
  constructor
  · rw [he]
    rcases le_or_lt (p * (q : ℚ) * (1 + buyFee)) a.cash with h | h
    · rw [buy_succ h]; simpa using h
    · rw [buy_fail h]; simp [h.not_le]
  · intro ha
    have h0 : p * ((0 : ℤ) : ℚ) * (1 + buyFee) ≤ a.cash := by simpa using ha
    rw [buy_succ h0]
    refine ⟨rfl, by simp, by simp, ?_⟩
    intro hl
    simp [hl]

/-- Witness for C10 at cash 1,000,000, price 500, qty 0, unheld "X". -/
theorem buy_no_validation_witness :
    (0 : ℚ) ≤ (Account.init 1000000).cash ∧
    lookupKey (Account.init 1000000).holdings "X" = none ∧
    ((Account.init 1000000).buy "t" "X" 500 0).2.holdings =
      (Account.init 1000000).holdings ++ [("X", 0)] :=
  ⟨by norm_num [Account.init], rfl,
    ((buy_no_validation (Account.init 1000000) "t" "X" 500 0).2
      (by norm_num [Account.init])).2.2.2 rfl⟩

/-! ## Quote resolver (src/stock_api.py)

Network I/O is shallow-embedded by passing each provider call's outcome in as
a value: `FetchResult.netError` models a raised exception anywhere inside the
corresponding `try` block (connection failure, timeout, `response.json()` or
`float()`/`int()` parse error), `FetchResult.response status body` a
completed exchange with decoded payload `body`. -/

namespace StockAPI

/-- Outcome of one provider HTTP call. -/
inductive FetchResult (α : Type) where
  | netError : FetchResult α
  | response (statusCode : ℕ) (body : α) : FetchResult α

/-- The quote dict every provider path returns (keys `price`, `change`,
`change_percent`, `volume`, `high`, `low`, `open`). -/
structure Quote where
  price : ℚ
  change : ℚ
  change_percent : ℚ
  volume : ℤ
  high : ℚ
  low : ℚ
  open_price : ℚ
deriving DecidableEq, Repr

/-- One row of the TWSE STOCK_DAY `data` array as the code reads it:
`latest[1]` volume, `latest[3]` open, `latest[4]` high, `latest[5]` low,
`latest[6]` close, `latest[7]` change (after the `','`/`'X'` replacements).
A `none` field models a string whose `float()`/`int()` parse raises; the
raise is caught by the enclosing `try` (src/stock_api.py line 87) and falls
through to the intraday provider, like any other exception. -/
structure TwDayRow where
  volume : Option ℤ
  open_price : Option ℚ
  high : Option ℚ
  low : Option ℚ
  close : Option ℚ
  change : Option ℚ

/-- Decoded STOCK_DAY payload; `data = none` models a JSON object with no
`'data'` key (the code tests `'data' in data`). -/
structure TwDayBody where
  data : Option (List TwDayRow)

/-- Method 1 of `_get_tw_realtime_price` (src/stock_api.py lines 51-88): the
end-of-day provider's attempt, `none` when it soft-fails (exception, non-200
status, missing `'data'` key, empty array, malformed numeric field). -/
def twDayQuote (r : FetchResult TwDayBody) : Option Quote :=
  match r with
  | .netError => none
  | .response status body =>
    if status = 200 then
      match body.data with
      | none => none
      | some rows =>
        match rows.getLast? with
        | none => none
        | some latest =>
          match latest.close, latest.open_price, latest.high, latest.low,
              latest.volume, latest.change with
          | some price, some openP, some high, some low, some volume,
              some change =>
            some { price := price, change := change,
                   change_percent :=
                     if 0 < openP then change / openP * 100 else 0,
                   volume := volume, high := high, low := low,
                   open_price := openP }
          | _, _, _, _, _, _ => none
    else none

/-- One element of the intraday `msgArray` as the code reads it: fields `z`
(last price), `o` (open), `h`, `l`, `v` (volume), `y` (yesterday close),
each `.get` with default `'0'`; `none` models the `'-'` placeholder (for `z`
also the empty string), which the code tests before parsing. -/
structure TwMisInfo where
  z : Option ℚ
  o : Option ℚ
  h : Option ℚ
  l : Option ℚ
  v : Option ℤ
  y : Option ℚ

/-- Decoded getStockInfo payload; `msgArray = none` models a JSON object
with no `'msgArray'` key. -/
structure TwMisBody where
  msgArray : Option (List TwMisInfo)

/-- Method 2 of `_get_tw_realtime_price` (src/stock_api.py lines 91-135):
the intraday provider's attempt; placeholders default to the last price
(`open`, `high`, `low`, `yesterday_close`) or 0 (`volume`), and
`change = price - yesterday_close`. -/
def twMisQuote (r : FetchResult TwMisBody) : Option Quote :=
  match r with
  | .netError => none
  | .response status body =>
    if status = 200 then
      match body.msgArray with
      | none => none
      | some arr =>
        match arr.head? with
        | none => none
        | some info =>
          match info.z with
          | none => none
          | some price =>
            let yesterday_close := info.y.getD price
            let change := price - yesterday_close
            some { price := price, change := change,
                   change_percent :=
                     if 0 < yesterday_close
                     then change / yesterday_close * 100 else 0,
                   volume := info.v.getD 0, high := info.h.getD price,
                   low := info.l.getD price, open_price := info.o.getD price }
    else none

/-- `StockAPI._get_tw_realtime_price` (src/stock_api.py lines 48-137): the
end-of-day provider first; every soft failure there falls through to the
intraday provider; `none` (the code's `None`) only when both fail. -/
def get_tw_realtime_price (rA : FetchResult TwDayBody)
    (rB : FetchResult TwMisBody) : Option Quote :=
  match twDayQuote rA with
  | some q => some q
  | none => twMisQuote rB

/-- One element of the Yahoo quote `result` array; `none` models an absent
field.  `regularMarketPrice` and `regularMarketPreviousClose` are required;
the rest default to the price (or 0 for the volume). -/
structure UsInfo where
  regularMarketPrice : Option ℚ
  regularMarketPreviousClose : Option ℚ
  regularMarketOpen : Option ℚ
  regularMarketDayHigh : Option ℚ
  regularMarketDayLow : Option ℚ
  regularMarketVolume : Option ℤ

/-- Decoded Yahoo payload: `data.get("quoteResponse", {}).get("result", [])`
(missing keys give the empty list). -/
structure UsBody where
  result : List UsInfo

/-- `StockAPI._get_us_realtime_price` (src/stock_api.py lines 140-186):
non-200 status, empty `result`, or a missing required field returns `None`;
`change = price - prev_close` with the divide-by-zero guard on
`prev_close`. -/
def get_us_realtime_price (r : FetchResult UsBody) : Option Quote :=
  match r with
  | .netError => none
  | .response status body =>
    if status = 200 then
      match body.result.head? with
      | none => none
      | some info =>
        match info.regularMarketPrice, info.regularMarketPreviousClose with
        | some price, some prev_close =>
          let change := price - prev_close
          some { price := price, change := change,
                 change_percent :=
                   if 0 < prev_close then change / prev_close * 100 else 0,
                 volume := info.regularMarketVolume.getD 0,
                 high := info.regularMarketDayHigh.getD price,
                 low := info.regularMarketDayLow.getD price,
                 open_price := info.regularMarketOpen.getD price }
        | _, _ => none
    else none

/-- `StockAPI._is_tw_stock` (src/stock_api.py lines 31-34):
`stock_code.isdigit()` — nonempty and all digits (stated on the string's
character list). -/
def is_tw_stock (stock_code : String) : Bool :=
  stock_code.data != [] && stock_code.data.all Char.isDigit

/-- `StockAPI.get_realtime_price` (src/stock_api.py lines 36-45): routes an
all-digit symbol to the domestic chain, anything else to the Yahoo path. -/
def get_realtime_price (stock_code : String) (rA : FetchResult TwDayBody)
    (rB : FetchResult TwMisBody) (rUS : FetchResult UsBody) : Option Quote :=
  if is_tw_stock stock_code then get_tw_realtime_price rA rB
  else get_us_realtime_price rUS

/-! ### Resolver lemmas -/

theorem twDayQuote_change_percent (rA : FetchResult TwDayBody) (q : Quote)
    (h : twDayQuote rA = some q) :
    q.change_percent =
      if 0 < q.open_price then q.change / q.open_price * 100 else 0 := by
  cases rA with
  | netError => simp [twDayQuote] at h
  | response status body =>
    unfold twDayQuote at h
    repeat' split at h
    all_goals simp_all
    all_goals (try subst h)
    all_goals (dsimp only; try simp only [sub_sub_cancel]; repeat' split)
    all_goals first | rfl | linarith | simp_all | rw [if_neg (by linarith)]

theorem twMisQuote_change_percent (rB : FetchResult TwMisBody) (q : Quote)
    (h : twMisQuote rB = some q) :
    q.change_percent =
      if 0 < q.price - q.change
      then q.change / (q.price - q.change) * 100 else 0 := by
  cases rB with
  | netError => simp [twMisQuote] at h
  | response status body =>
    unfold twMisQuote at h
    repeat' split at h
    all_goals simp_all
    all_goals (try subst h)
    all_goals (dsimp only; try simp only [sub_sub_cancel]; repeat' split)
    all_goals first | rfl | linarith | simp_all | rw [if_neg (by linarith)]

theorem usQuote_change_percent (rUS : FetchResult UsBody) (q : Quote)
    (h : get_us_realtime_price rUS = some q) :
    q.change_percent =
      if 0 < q.price - q.change
      then q.change / (q.price - q.change) * 100 else 0 := by
  cases rUS with
  | netError => simp [get_us_realtime_price] at h
  | response status body =>
    unfold get_us_realtime_price at h
    repeat' split at h
    all_goals simp_all
    all_goals (try subst h)
    all_goals (dsimp only; try simp only [sub_sub_cancel]; repeat' split)
    all_goals first | rfl | linarith | simp_all | rw [if_neg (by linarith)]

/-! ### Resolver claims -/

/-- C7: for a domestic (all-digit) symbol the resolver tries the end-of-day
provider first: whenever that attempt yields a quote, the overall result is
exactly that quote, independent of the intraday outcome; every end-of-day
soft failure — raised exception (network error, timeout, JSON or float parse,
modelled as `netError`), non-200 status, missing `'data'` key, empty or
malformed row — makes the method-1 attempt `none`, after which the result is
exactly the intraday provider's outcome; when both attempts fail the result
is `none` (the code's `None`, `NotAvailable`).  The resolver is a total
function into `Option Quote`: exceptions are absorbed into the `FetchResult`
values, so no exception reaches the caller in any case. -/
theorem tw_fallback_chain (s : String) (hs : is_tw_stock s = true)
    (rA : FetchResult TwDayBody) (rB : FetchResult TwMisBody)
    (rUS : FetchResult UsBody) :
    (∀ q, twDayQuote rA = some q → get_realtime_price s rA rB rUS = some q) ∧
    (twDayQuote rA = none → get_realtime_price s rA rB rUS = twMisQuote rB) ∧
    (twDayQuote rA = none → twMisQuote rB = none →
      get_realtime_price s rA rB rUS = none) := by
  unfold get_realtime_price get_tw_realtime_price
  rw [hs]
  refine ⟨fun q hq => ?_, fun h => ?_, fun h1 h2 => ?_⟩
  · simp [hq]
  · simp [h]
  · simp [h1, h2]

/-- Witness for C7 at symbol "2330" with both domestic providers failing. -/
theorem tw_fallback_chain_witness :
    is_tw_stock "2330" = true ∧
    twDayQuote (FetchResult.netError : FetchResult TwDayBody) = none ∧
    twMisQuote (FetchResult.netError : FetchResult TwMisBody) = none ∧
    get_realtime_price "2330" FetchResult.netError FetchResult.netError
      (FetchResult.netError : FetchResult UsBody) = none :=
  ⟨rfl, rfl, rfl,
    (tw_fallback_chain "2330" rfl FetchResult.netError FetchResult.netError
      FetchResult.netError).2.2 rfl rfl⟩

/-- The end-of-day payload of the C8 counterexample: close 100, open 90, and
provider change field 5 (on the real endpoint that field is the day-on-day
price difference, not close minus open). -/
def dayRowCex : TwDayRow :=
  { volume := some 1000, open_price := some 90, high := some 101,
    low := some 89, close := some 100, change := some 5 }

/-- C8 counterexample: on the domestic end-of-day path the returned `change`
is the provider's change field (`latest[7]`), not `price - reference`: with
close 100, open 90 (the path's reference per the claim) and change field 5,
the resolver returns a successful quote whose `change` is 5 while
`price - reference = 10 ≠ 5`. -/
theorem change_not_price_sub_reference :
    get_realtime_price "2330"
      (FetchResult.response 200 { data := some [dayRowCex] })
      FetchResult.netError (FetchResult.netError : FetchResult UsBody) =
      some { price := 100, change := 5, change_percent := 50/9,
             volume := 1000, high := 101, low := 89, open_price := 90 } ∧
    (5 : ℚ) ≠ 100 - 90 := by
  constructor
  · have h : is_tw_stock "2330" = true := rfl
    simp only [get_realtime_price, h, if_true, get_tw_realtime_price,
      twDayQuote, dayRowCex]
    norm_num
  · norm_num

/-- C8 amended: no path ever divides by zero — `changePercent` is the
guarded `change / reference * 100` with 0 when the reference is not
positive.  On the domestic intraday and foreign paths
`change = price - reference` (reference = previous close / last-tick
baseline, recoverable from the quote as `price - change`), so the guard and
ratio are stated through that expression; on the domestic end-of-day path
`change` is the provider's own change field — not `price - open` — and the
reference dividing `changePercent` is the open price. -/
theorem change_percent_guard (rA : FetchResult TwDayBody)
    (rB : FetchResult TwMisBody) (rUS : FetchResult UsBody) (q : Quote) :
    (twDayQuote rA = some q →
      q.change_percent =
        if 0 < q.open_price then q.change / q.open_price * 100 else 0) ∧
    (twMisQuote rB = some q →
      q.change_percent =
        if 0 < q.price - q.change
        then q.change / (q.price - q.change) * 100 else 0) ∧
    (get_us_realtime_price rUS = some q →
      q.change_percent =
        if 0 < q.price - q.change
        then q.change / (q.price - q.change) * 100 else 0) :=
  ⟨twDayQuote_change_percent rA q, twMisQuote_change_percent rB q,
    usQuote_change_percent rUS q⟩

/-- The intraday payload of the C8 witness: last price 105, yesterday close
100, all optional fields at their `'-'` placeholder. -/
def misInfoWit : TwMisInfo :=
  { z := some 105, o := none, h := none, l := none, v := none, y := some 100 }

/-- The quote the intraday provider produces from `misInfoWit`. -/
def misQuoteWit : Quote :=
  { price := 105, change := 5, change_percent := 5, volume := 0,
    high := 105, low := 105, open_price := 105 }

/-- Witness for C8 (amended) on the intraday path. -/
theorem change_percent_guard_witness :
    twMisQuote (FetchResult.response 200 { msgArray := some [misInfoWit] }) =
      some misQuoteWit ∧
    misQuoteWit.change_percent =
      if 0 < misQuoteWit.price - misQuoteWit.change
      then misQuoteWit.change / (misQuoteWit.price - misQuoteWit.change) * 100
      else 0 := by
  have hEval : twMisQuote
      (FetchResult.response 200 { msgArray := some [misInfoWit] }) =
      some misQuoteWit := by
    norm_num [twMisQuote, misInfoWit, misQuoteWit]
  exact ⟨hEval,
    (change_percent_guard FetchResult.netError
      (FetchResult.response 200 { msgArray := some [misInfoWit] })
      FetchResult.netError misQuoteWit).2.1 hEval⟩

end StockAPI

/-! ## Performance logger

No performance/snapshot logger exists anywhere under src/ (the repository's
code never persists valuations); the spec (§2, §3, §4.4, §8) describes one,
so the component is modelled here from the spec's words and claim C9 is
settled against this model. -/

namespace PerformanceLogger

/-- Modelled from the spec: `DailySnapshot = {date, time, cash, totalAsset,
pnl}` with `pnl = totalAsset - initialCash` (spec §3).  No implementation
exists in src/. -/
structure DailySnapshot where
  date : ℕ
  time : ℕ
  cash : ℚ
  totalAsset : ℚ
  pnl : ℚ
deriving DecidableEq, Repr

/-- Modelled from the spec: `HoldingSnapshot = {date, symbol, shares, price,
value}` (spec §3).  No implementation exists in src/. -/
structure HoldingSnapshot where
  date : ℕ
  symbol : Symbol
  shares : ℤ
  price : ℚ
  value : ℚ
deriving DecidableEq, Repr

/-- Modelled from the spec: the logger's state — the last-logged-date marker
and the two append-only stores (spec §4.4).  No implementation exists in
src/. -/
structure LogState where
  lastLoggedDate : Option ℕ
  summary : List DailySnapshot
  detail : List HoldingSnapshot
deriving DecidableEq, Repr

/-- Modelled from the spec: one valuation tick (spec §4.4) — when the marker
already equals the current calendar date the call is a no-op for logging;
otherwise it appends exactly one `DailySnapshot` row to the summary store and
one `HoldingSnapshot` row per currently held symbol to the detail store
(price taken from the cycle's quote map, 0 when absent, per §4.1's
missing-quote policy), then advances the marker.  No implementation exists
in src/. -/
def logValuation (st : LogState) (date time : ℕ)
    (cash totalAsset initialCash : ℚ) (holdings : List (Symbol × ℤ))
    (prices : List (Symbol × ℚ)) : LogState :=
  if st.lastLoggedDate = some date then st
  else
    { lastLoggedDate := some date
      summary := st.summary ++
        [{ date := date, time := time, cash := cash,
           totalAsset := totalAsset, pnl := totalAsset - initialCash }]
      detail := st.detail ++ holdings.map (fun x =>
        let pr := (lookupKey prices x.1).getD 0
        { date := date, symbol := x.1, shares := x.2, price := pr,
          value := pr * (x.2 : ℚ) }) }

/-- C9 (spec-modelled): a first valuation on a not-yet-logged calendar date
appends exactly one summary row and exactly one detail row per held symbol;
a second valuation on the same date — whatever its other inputs — changes
nothing; and a valuation on a different date afterwards appends exactly one
new summary row and one detail row per then-held symbol. -/
theorem same_date_idempotent (st : LogState) (d : ℕ)
    (hd : st.lastLoggedDate ≠ some d) (t1 t2 : ℕ) (c1 v1 c2 v2 ic : ℚ)
    (h1 h2 : List (Symbol × ℤ)) (p1 p2 : List (Symbol × ℚ)) :
    ((logValuation st d t1 c1 v1 ic h1 p1).summary.length
        = st.summary.length + 1 ∧
      (logValuation st d t1 c1 v1 ic h1 p1).detail.length
        = st.detail.length + h1.length) ∧
    logValuation (logValuation st d t1 c1 v1 ic h1 p1) d t2 c2 v2 ic h2 p2
      = logValuation st d t1 c1 v1 ic h1 p1 ∧
    (∀ d2, d2 ≠ d → ∀ (t3 : ℕ) (c3 v3 : ℚ) (h3 : List (Symbol × ℤ))
        (p3 : List (Symbol × ℚ)),
      (logValuation (logValuation st d t1 c1 v1 ic h1 p1)
          d2 t3 c3 v3 ic h3 p3).summary.length
        = (logValuation st d t1 c1 v1 ic h1 p1).summary.length + 1 ∧
      (logValuation (logValuation st d t1 c1 v1 ic h1 p1)
          d2 t3 c3 v3 ic h3 p3).detail.length
        = (logValuation st d t1 c1 v1 ic h1 p1).detail.length + h3.length) := by
  have e1 : logValuation st d t1 c1 v1 ic h1 p1 =
      { lastLoggedDate := some d
        summary := st.summary ++
          [{ date := d, time := t1, cash := c1, totalAsset := v1,
             pnl := v1 - ic }]
        detail := st.detail ++ h1.map (fun x =>
          let pr := (lookupKey p1 x.1).getD 0
          { date := d, symbol := x.1, shares := x.2, price := pr,
            value := pr * (x.2 : ℚ) }) } := by
    unfold logValuation
    rw [if_neg hd]
  refine ⟨⟨?_, ?_⟩, ?_, ?_⟩
  · rw [e1]; simp
  · rw [e1]; simp
  · rw [e1]
    unfold logValuation
    simp
  · intro d2 hd2 t3 c3 v3 h3 p3
    rw [e1]
    unfold logValuation
    rw [if_neg (by simpa using fun h => hd2 h.symm)]
    constructor <;> simp <;> omega

/-- Witness for C9 from an empty logger at date 1 then date 2. -/
theorem same_date_idempotent_witness :
    (⟨none, [], []⟩ : LogState).lastLoggedDate ≠ some 1 ∧
    logValuation (logValuation ⟨none, [], []⟩ 1 0 100 100 100 [] [])
        1 1 100 100 100 [] []
      = logValuation ⟨none, [], []⟩ 1 0 100 100 100 [] [] :=
  ⟨by simp,
    (same_date_idempotent ⟨none, [], []⟩ 1 (by simp) 0 1 100 100 100 100 100
      [] [] [] []).2.1⟩

end PerformanceLogger

end Engine
